import Mathlib

/-!
Shallow embedding of the SmartBids bid-analysis core (`src/src/App.jsx`):
text extraction (`processFile`), the retrying transport (`fetchWithRetry`),
the response handling and defaulting logic of `handleAnalyze` (including the
usage-increment side effect and the paywall / missing-input guards), and the
grouping and ranking logic of `ComplianceRanking`. Machine numbers from the
JavaScript source are modelled as `ℚ` (scores) and `ℕ` (counters, durations in
milliseconds); promise rejection is modelled with `Except`.
-/

/-- JavaScript `a || b` on an optional string: `undefined` and `""` are falsy,
so both are replaced by the default. -/
def jsOrString (o : Option String) (d : String) : String :=
  match o with
  | some s => if s = "" then d else s
  | none => d

/-- JavaScript `a || b` on an optional number: `undefined` and `0` are falsy,
so both are replaced by the default. -/
def jsOrRat (o : Option ℚ) (d : ℚ) : ℚ :=
  match o with
  | some x => if x = 0 then d else x
  | none => d

/-- Splitting a character list at a separator character, as JavaScript
`name.split(dot)` does for the single-character separator used in
`processFile`. -/
def splitOnChar (sep : Char) : List Char → List (List Char)
  | [] => [[]]
  | c :: cs =>
    let rest := splitOnChar sep cs
    if c = sep then [] :: rest
    else
      match rest with
      | [] => [[c]]
      | r :: rs => (c :: r) :: rs

/-- The `split / pop / toLowerCase` chain from `processFile`: the part of
the name after the last dot, lowercased. -/
def fileExtension (name : String) : String :=
  String.mk (((splitOnChar '.' name.data).getLastD []).map Char.toLower)

/-- Whether the optional page-rendering / rich-document-reader capabilities are
loaded (`window.pdfjsLib` and `window.mammoth` in the source). -/
structure LibsEnv where
  pdfLibLoaded : Bool
  mammothLoaded : Bool

/-- An uploaded file together with the outcomes of the underlying decoding
steps `processFile` may perform on it: `FileReader.readAsText`
(`textContent`), `pdfjsLib.getDocument` (`pdfPages`, every page given as the
list of the `str` fields of its text items, in page order), and
`mammoth.extractRawText` (`docxRaw`). An `Except.error` models the reader or
library rejecting, carrying the underlying message. -/
structure UploadedFile where
  name : String
  textContent : Except String String
  pdfPages : Except String (List (List String))
  docxRaw : Except String String

/-- The function `processFile` from `src/src/App.jsx` (lines 156-192): dispatch on the
lowercased final file-name extension; `txt` resolves with the text read,
`pdf` concatenates the space-joined item texts of each page plus a blank-line
separator over all
pages in order, `docx` resolves with the raw-text extraction verbatim; any
other extension rejects with `Unsupported file type.`; a missing library
rejects with the corresponding message. -/
def processFile (env : LibsEnv) (file : UploadedFile) : Except String String :=
  let fileExt := fileExtension file.name
  if fileExt = "txt" then
    file.textContent
  else if fileExt = "pdf" then
    if env.pdfLibLoaded = false then .error "PDF lib not loaded."
    else
      match file.pdfPages with
      | .error e => .error e
      | .ok pages =>
        .ok (pages.foldl
          (fun fullText items => fullText ++ (String.intercalate " " items ++ "\n\n")) "")
  else if fileExt = "docx" then
    if env.mammothLoaded = false then .error "DOCX lib not loaded."
    else file.docxRaw
  else .error "Unsupported file type."

/-- The body of a successful HTTP exchange, after `response.json()`:
`jsonText` is `result.candidates?.[0]?.content?.parts?.[0]?.text`, `none` when
the optional chain is missing. -/
structure ResBody where
  jsonText : Option String

/-- A fetch response: its `ok` flag and `status`, and the outcome of
`response.json()` (which can itself reject on a malformed body). -/
structure Response where
  ok : Bool
  status : Nat
  json : Except String ResBody

/-- One attempt of `fetchWithRetry`: a network-level failure is an
`Except.error` from the fetch itself, and a non-success status is turned into
the thrown `HTTP error!` message, exactly as the `if (!response.ok) throw`
line does. -/
def attemptResult (r : Except String Response) : Except String Response :=
  match r with
  | .error e => .error e
  | .ok resp =>
    if resp.ok then .ok resp
    else .error ("HTTP error! Status: " ++ toString resp.status)

/-- Observable events of one `fetchWithRetry` call: the i-th attempt with its
outcome, and a backoff wait of a given duration in milliseconds. -/
inductive Ev where
  | attempt (i : Nat) (r : Except String Response)
  | wait (d : Nat)

/-- The loop body of `fetchWithRetry` (lines 138-149): on a successful attempt
return the response; on a failed attempt rethrow if it was the last one,
otherwise wait `Math.pow(2, i) * 1000` milliseconds and try again. The
returned trace lists attempts and waits in the order they happen. Falling out
of the loop (only possible when `maxRetries = 0`) returns `undefined`,
modelled as `.ok none`. -/
def fetchWithRetryGo (fetchF : Nat → Except String Response) (maxRetries i : Nat)
    (trace : List Ev) : Except String (Option Response) × List Ev :=
  if _h : i < maxRetries then
    match attemptResult (fetchF i) with
    | .ok r => (.ok (some r), trace ++ [.attempt i (.ok r)])
    | .error e =>
      if i = maxRetries - 1 then (.error e, trace ++ [.attempt i (.error e)])
      else
        fetchWithRetryGo fetchF maxRetries (i + 1)
          (trace ++ [.attempt i (.error e), .wait (2 ^ i * 1000)])
  else (.ok none, trace)
termination_by maxRetries - i

/-- The function `fetchWithRetry` from `src/src/App.jsx`, starting the loop at attempt 0
with an empty event trace. -/
def fetchWithRetry (fetchF : Nat → Except String Response) (maxRetries : Nat) :
    Except String (Option Response) × List Ev :=
  fetchWithRetryGo fetchF maxRetries 0 []

/-- Number of attempts recorded in a transport trace. -/
def numAttempts (t : List Ev) : Nat :=
  t.countP fun ev =>
    match ev with
    | .attempt _ _ => true
    | .wait _ => false

/-- Total backoff wait (in milliseconds) recorded in a transport trace. -/
def totalWait (t : List Ev) : Nat :=
  (t.map fun ev =>
    match ev with
    | .attempt _ _ => 0
    | .wait d => d).sum

/-- Whether an event is a successful attempt. -/
def isOkAttempt : Ev → Bool
  | .attempt _ (.ok _) => true
  | _ => false

/-- Every successful attempt in the trace, if any, is its very last event:
nothing happens after a success. -/
def successIsLast (t : List Ev) : Prop :=
  ∀ ev ∈ t.dropLast, isOkAttempt ev = false

/-- The trace segment produced by `k` consecutive failed attempts starting at
index `i`, each followed by its backoff wait of `2 ^ i * 1000` milliseconds. -/
def failSeg (e : Nat → String) : Nat → Nat → List Ev
  | _, 0 => []
  | i, k + 1 =>
    .attempt i (.error (e i)) :: .wait (2 ^ i * 1000) :: failSeg e (i + 1) k

/-- The constant `CATEGORY_ENUM` from the source (line 41). -/
def CATEGORY_ENUM : List String :=
  ["MUST_HAVE_SKILL", "EXPERIENCE", "EDUCATION", "CERTIFICATION", "SOFT_SKILLS",
   "LOCATION/LANG", "CULTURE_FIT"]

/-- The `fitLevel` enum of `SMARTHIRE_REPORT_SCHEMA` (line 81). -/
def FIT_LEVEL_ENUM : List String :=
  ["EXCELLENT FIT", "GOOD FIT", "AVERAGE", "POOR FIT"]

/-- The `flag` enum of a finding in `SMARTHIRE_REPORT_SCHEMA` (line 117). -/
def FLAG_ENUM : List String := ["MATCH", "PARTIAL", "MISSING"]

/-- One entry of the `findings` array, with every field optional as decoded
from JSON. -/
structure Finding where
  requirementFromJD : Option String := none
  candidateEvidence : Option String := none
  matchScore : Option ℚ := none
  flag : Option String := none
  category : Option String := none
  recruiterAction : Option String := none

/-- The `candidateSummary` object of the schema. -/
structure CandidateSummary where
  yearsExperienceNum : Option ℚ := none
  currentRole : Option String := none
  educationLevel : Option String := none

/-- One entry of the `interviewQuestions` array. -/
structure InterviewQuestion where
  topic : Option String := none
  question : Option String := none

/-- A decoded JSON payload shaped like `SMARTHIRE_REPORT_SCHEMA`, with every
field optional: this is what `JSON.parse(jsonText)` can deliver before any
validation. -/
structure RawPayload where
  jobRole : Option String := none
  candidateName : Option String := none
  candidateLocation : Option String := none
  salaryIndication : Option String := none
  candidateSummary : Option CandidateSummary := none
  suitabilityScore : Option ℚ := none
  fitLevel : Option String := none
  skillGaps : Option (List String) := none
  interviewQuestions : Option (List InterviewQuestion) := none
  executiveSummary : Option String := none
  findings : Option (List Finding) := none

/-- The contract stated by `SMARTHIRE_REPORT_SCHEMA`: every field in its
`required` list is present, `fitLevel` lies in its enum, and for each finding
the `flag` and `category` fields, when present, lie in their enums. -/
def findingMeetsSchema (f : Finding) : Bool :=
  (match f.flag with
   | some s => FLAG_ENUM.contains s
   | none => true) &&
  (match f.category with
   | some s => CATEGORY_ENUM.contains s
   | none => true)

/-- Whether a raw payload satisfies the `required` list and enum
domains of the schema (line 134 of the source). -/
def meetsContract (p : RawPayload) : Bool :=
  p.jobRole.isSome && p.candidateName.isSome && p.candidateLocation.isSome &&
  p.salaryIndication.isSome && p.suitabilityScore.isSome &&
  (match p.fitLevel with
   | some s => FIT_LEVEL_ENUM.contains s
   | none => false) &&
  p.candidateSummary.isSome && p.skillGaps.isSome &&
  p.interviewQuestions.isSome && p.executiveSummary.isSome &&
  (match p.findings with
   | some fs => fs.all findingMeetsSchema
   | none => false)

/-- The fallback lines of `handleAnalyze` (998-1000):
`parsedReport.jobRole = parsedReport.jobRole || "Untitled RFP"` and
`parsedReport.candidateName = parsedReport.candidateName || "Unknown Bidder"`;
every other field is left untouched. -/
def applyReportDefaults (p : RawPayload) : RawPayload :=
  { p with
    jobRole := some (jsOrString p.jobRole "Untitled RFP")
    candidateName := some (jsOrString p.candidateName "Unknown Bidder") }

/-- The response-consuming step of `handleAnalyze` (lines 994-1003): if the
`jsonText` field is absent, throw `"AI response was empty or invalid."`;
otherwise `JSON.parse` it (a parse failure propagates) and apply the two
fallbacks. `parseJson` stands for the ambient `JSON.parse`. -/
def validate (parseJson : String → Except String RawPayload)
    (jsonText : Option String) : Except String RawPayload :=
  match jsonText with
  | none => .error "AI response was empty or invalid."
  | some txt =>
    match parseJson txt with
    | .error e => .error e
    | .ok p => .ok (applyReportDefaults p)

/-- The constant `MAX_FREE_AUDITS` from the source (line 43). -/
def MAX_FREE_AUDITS : Nat := 1000000

/-- The inputs of one `handleAnalyze` run: the role and usage counter of the
user,
the two uploaded files, the library environment, the per-attempt transport
behaviour, and the ambient `JSON.parse`. -/
structure PipelineArgs where
  role : Option String
  bidderChecks : Nat
  rfqFile : Option UploadedFile
  bidFile : Option UploadedFile
  env : LibsEnv
  fetchF : Nat → Except String Response
  parseJson : String → Except String RawPayload

/-- The terminal outcome of one `handleAnalyze` run. -/
inductive RunResult where
  | paywall
  | missingInput
  | failure (msg : String)
  | success (report : RawPayload)

/-- Whether a run outcome is the successful terminal state. -/
def isSuccessRun : RunResult → Bool
  | .success _ => true
  | _ => false

/-- The observable side effects of one `handleAnalyze` run: how many file
extractions were started, the transport event trace, and how many times
`incrementUsage` was invoked. -/
structure RunEffects where
  extractions : Nat
  transportTrace : List Ev
  incrementCalls : Nat

/-- The function `handleAnalyze` from `src/src/App.jsx` (lines 932-1009): the paywall guard,
the missing-input guard, sequential extraction of the two files, the
`fetchWithRetry` call with the default 3 attempts, `response.json()`,
response validation with fallbacks, and the `incrementUsage()` call that
happens only after a report was produced. A failure at any stage aborts the run
into the `catch` branch. -/
def handleAnalyze (a : PipelineArgs) : RunResult × RunEffects :=
  if a.role ≠ some "ADMIN" ∧ MAX_FREE_AUDITS ≤ a.bidderChecks then
    (.paywall, ⟨0, [], 0⟩)
  else
    match a.rfqFile, a.bidFile with
    | some rfq, some bid =>
      match processFile a.env rfq with
      | .error e => (.failure e, ⟨1, [], 0⟩)
      | .ok _rfpContent =>
        match processFile a.env bid with
        | .error e => (.failure e, ⟨2, [], 0⟩)
        | .ok _bidContent =>
          match fetchWithRetry a.fetchF 3 with
          | (.error e, tr) => (.failure e, ⟨2, tr, 0⟩)
          | (.ok none, tr) => (.failure "response is undefined", ⟨2, tr, 0⟩)
          | (.ok (some resp), tr) =>
            match resp.json with
            | .error e => (.failure e, ⟨2, tr, 0⟩)
            | .ok body =>
              match validate a.parseJson body.jsonText with
              | .error e => (.failure e, ⟨2, tr, 0⟩)
              | .ok report => (.success report, ⟨2, tr, 1⟩)
    | _, _ => (.missingInput, ⟨0, [], 0⟩)

/-- A report stored in the history: the report fields plus the bookkeeping
fields added by `saveReport`. -/
structure HistReport extends RawPayload where
  id : Nat := 0
  timestamp : Nat := 0

/-- The line `const percentage = report.suitabilityScore || 0` from `ComplianceRanking`
(line 445). -/
def percentage (r : HistReport) : ℚ :=
  jsOrRat r.suitabilityScore 0

/-- The line `const jobRole = report.jobRole || "Untitled RFP"` from
`ComplianceRanking` (line 444): the key a history report is grouped under. -/
def groupKey (r : HistReport) : String :=
  jsOrString r.jobRole "Untitled RFP"

/-- Adding one report (paired with its percentage) to the group keyed by `k`,
preserving first-encounter key order and within-group arrival order, as the
`reduce` accumulator object does. -/
def addToGroups (acc : List (String × List (HistReport × ℚ))) (k : String)
    (entry : HistReport × ℚ) : List (String × List (HistReport × ℚ)) :=
  match acc with
  | [] => [(k, [entry])]
  | g :: rest =>
    if g.1 = k then (g.1, g.2 ++ [entry]) :: rest
    else g :: addToGroups rest k entry

/-- The accumulator `groupedReports` from `ComplianceRanking` (lines 443-450): fold the
history, pushing `{ ...report, percentage }` onto the group keyed by
`report.jobRole || "Untitled RFP"`. -/
def groupedReports (reports : List HistReport) :
    List (String × List (HistReport × ℚ)) :=
  reports.foldl (fun acc r => addToGroups acc (groupKey r) (r, percentage r)) []

/-- The list `rankedProjects` (line 451): the groups with at least one report, sorted
by group name; `localeCompare` is modelled by the string order, and the
stable JavaScript `sort` by a stable insertion sort. -/
def rankedProjects (reports : List HistReport) :
    List (String × List (HistReport × ℚ)) :=
  List.insertionSort (fun a b => a.1 ≤ b.1)
    ((groupedReports reports).filter fun g => 1 ≤ g.2.length)

/-- The grouped-and-ranked view rendered by `ComplianceRanking`: within each
group the reports are sorted by `(a, b) => b.percentage - a.percentage`
(line 461), i.e. by percentage descending, again with a stable sort. -/
def groupAndRank (reports : List HistReport) :
    List (String × List (HistReport × ℚ)) :=
  (rankedProjects reports).map fun g =>
    (g.1, List.insertionSort (fun a b => b.2 ≤ a.2) g.2)

/-- Modelled from the spec (§4.5): the metric the spec calls
`compliancePercentage` — sum the scores of the findings, divide by their count,
scale to 0-100 and round to one decimal place, with 0 for zero findings. The
source never computes this; the definition exists to compare this specified
formula with what the code actually displays. -/
def roundTo1 (x : ℚ) : ℚ :=
  (⌊10 * x + 1 / 2⌋ : ℤ) / 10

/-- Modelled from the spec (§4.5, §8): `compliancePercentage` over a findings
list. -/
def compliancePercentageSpec (findings : List Finding) : ℚ :=
  if findings.length = 0 then 0
  else roundTo1 (100 * ((findings.map fun f => f.matchScore.getD 0).sum) / findings.length)

/-! Helper lemmas and concrete fixtures. -/

/-- Both optional reader libraries loaded. -/
def envAll : LibsEnv := ⟨true, true⟩

lemma join_cons (x : String) (xs : List String) :
    String.join (x :: xs) = x ++ String.join xs := by
  simp [String.join_eq]; rfl

lemma foldl_append_join (f : List String → String) :
    ∀ (l : List (List String)) (s : String),
      l.foldl (fun acc items => acc ++ f items) s = s ++ String.join (l.map f) := by
  intro l
  induction l with
  | nil => intro s; simp [String.join]
  | cons x xs ih =>
    intro s
    simp only [List.foldl_cons, List.map_cons]
    rw [ih, join_cons, String.append_assoc]

/-- Claim C10: extraction dispatches on the file-name extension
case-insensitively — the characters after the last dot are lowercased before
comparison, so the dispatch depends on the name only through that lowercased
final extension; names whose lowercased final extension is outside
txt/pdf/docx are rejected as unsupported, a txt name is handled by the text
branch, and `X.TXT`, `X.Pdf`, `X.DOCX` normalize to `txt`, `pdf`, `docx`. -/
theorem c10_extension_case_insensitive :
    (∀ (env : LibsEnv) (n₁ n₂ : String) (tc : Except String String)
        (pp : Except String (List (List String))) (dr : Except String String),
        fileExtension n₁ = fileExtension n₂ →
        processFile env ⟨n₁, tc, pp, dr⟩ = processFile env ⟨n₂, tc, pp, dr⟩) ∧
    (∀ (env : LibsEnv) (f : UploadedFile),
        fileExtension f.name ∉ ["txt", "pdf", "docx"] →
        processFile env f = .error "Unsupported file type.") ∧
    (∀ (env : LibsEnv) (f : UploadedFile),
        fileExtension f.name = "txt" → processFile env f = f.textContent) ∧
    fileExtension "X.TXT" = "txt" ∧ fileExtension "X.Pdf" = "pdf" ∧
    fileExtension "X.DOCX" = "docx" := by
  refine ⟨?_, ?_, ?_, rfl, rfl, rfl⟩
  · intro env n₁ n₂ tc pp dr h
    unfold processFile
    dsimp only
    rw [h]
  · intro env f h
    simp only [List.mem_cons, List.not_mem_nil, or_false, not_or] at h
    obtain ⟨h1, h2, h3⟩ := h
    simp [processFile, h1, h2, h3]
  · intro env f h
    simp [processFile, h]

/-- Witness for C10 at a concrete unsupported extension. -/
theorem c10_extension_case_insensitive_witness :
    processFile envAll ⟨"image.PNG", .ok "x", .ok [], .ok ""⟩
      = .error "Unsupported file type." :=
  c10_extension_case_insensitive.2.1 envAll ⟨"image.PNG", .ok "x", .ok [], .ok ""⟩
    (by decide)

/-- A three-page pdf document whose pages carry the single items `A`, `B`,
`C`. -/
def pdfThreePages : UploadedFile :=
  ⟨"doc.pdf", .ok "", .ok [["A"], ["B"], ["C"]], .ok ""⟩

/-- Claim C6: for a pdf-kind document whose page decoding succeeds, extraction
returns the concatenation, in page order, of the text of each page (its items
joined by spaces) followed by a blank-line separator, with no page skipped or
reordered; in particular a 3-page document with pages `A`, `B`, `C` extracts
to `"A\n\nB\n\nC\n\n"`. -/
theorem c6_pdf_page_concat :
    (∀ (env : LibsEnv) (f : UploadedFile) (pages : List (List String)),
        env.pdfLibLoaded = true →
        fileExtension f.name = "pdf" →
        f.pdfPages = .ok pages →
        processFile env f
          = .ok (String.join
              (pages.map fun items => String.intercalate " " items ++ "\n\n"))) ∧
    processFile envAll pdfThreePages = .ok "A\n\nB\n\nC\n\n" := by
  constructor
  · intro env f pages hlib hext hpages
    simp only [processFile, hext, hlib, hpages]
    norm_num
    rw [foldl_append_join (fun items => String.intercalate " " items ++ "\n\n") pages ""]
    rfl
  · rfl

/-- Witness for C6, applying the general statement to the three-page
document. -/
theorem c6_pdf_page_concat_witness :
    processFile envAll pdfThreePages
      = .ok (String.join
          ([["A"], ["B"], ["C"]].map fun items => String.intercalate " " items ++ "\n\n")) :=
  c6_pdf_page_concat.1 envAll pdfThreePages [["A"], ["B"], ["C"]] rfl rfl rfl

/-- An empty text file: reading succeeds and yields the empty string. -/
def emptyTxtFile : UploadedFile := ⟨"notes.txt", .ok "", .ok [], .ok ""⟩

/-- Counterexample to claim C4 as stated: an empty `.txt` file extracts
successfully to the empty string, so successful extraction does not guarantee
non-empty text. -/
theorem c4_counterexample :
    processFile envAll emptyTxtFile = .ok "" ∧ ("" : String).length = 0 :=
  ⟨rfl, rfl⟩

/-- Claim C4 (amended): a decode failure in any branch propagates as an error
carrying the underlying message and never resolves as success, but successful
extraction may yield the empty string (e.g. an empty text file), so
non-emptiness on success does not hold. -/
theorem c4_decode_failure_propagates (env : LibsEnv) (f : UploadedFile) (e : String) :
    (fileExtension f.name = "txt" → f.textContent = .error e →
        processFile env f = .error e) ∧
    (fileExtension f.name = "pdf" → env.pdfLibLoaded = true → f.pdfPages = .error e →
        processFile env f = .error e) ∧
    (fileExtension f.name = "docx" → env.mammothLoaded = true → f.docxRaw = .error e →
        processFile env f = .error e) := by
  refine ⟨?_, ?_, ?_⟩
  · intro hext htc
    simp [processFile, hext, htc]
  · intro hext hlib hpp
    simp [processFile, hext, hlib, hpp]
  · intro hext hlib hdr
    simp [processFile, hext, hlib, hdr]

/-- Witness for the amended C4 at a concrete corrupt pdf. -/
theorem c4_decode_failure_propagates_witness :
    processFile envAll ⟨"bad.pdf", .ok "", .error "corrupt bytes", .ok ""⟩
      = .error "corrupt bytes" :=
  (c4_decode_failure_propagates envAll ⟨"bad.pdf", .ok "", .error "corrupt bytes", .ok ""⟩
    "corrupt bytes").2.1 rfl rfl rfl

/-- Claim C2: the usage-increment operation is invoked exactly once on a run
that reaches the successful terminal state, and never on any other run
(paywall, missing input, extraction failure, transport exhaustion, malformed
response, or empty response). -/
theorem c2_increment_iff_success (a : PipelineArgs) :
    (handleAnalyze a).2.incrementCalls
      = if isSuccessRun (handleAnalyze a).1 then 1 else 0 := by
  by_cases hpw : a.role ≠ some "ADMIN" ∧ MAX_FREE_AUDITS ≤ a.bidderChecks
  · simp [handleAnalyze, hpw, isSuccessRun]
  rcases h1 : a.rfqFile with _ | rfq
  · simp [handleAnalyze, hpw, h1, isSuccessRun]
  rcases h2 : a.bidFile with _ | bid
  · simp [handleAnalyze, hpw, h1, h2, isSuccessRun]
  rcases h3 : processFile a.env rfq with e | c1
  · simp [handleAnalyze, hpw, h1, h2, h3, isSuccessRun]
  rcases h4 : processFile a.env bid with e | c2
  · simp [handleAnalyze, hpw, h1, h2, h3, h4, isSuccessRun]
  rcases h5 : fetchWithRetry a.fetchF 3 with ⟨e | o, tr⟩
  · simp [handleAnalyze, hpw, h1, h2, h3, h4, h5, isSuccessRun]
  rcases o with _ | resp
  · simp [handleAnalyze, hpw, h1, h2, h3, h4, h5, isSuccessRun]
  rcases h6 : resp.json with e | body
  · simp [handleAnalyze, hpw, h1, h2, h3, h4, h5, h6, isSuccessRun]
  rcases h7 : validate a.parseJson body.jsonText with e | rep <;>
    simp [handleAnalyze, hpw, h1, h2, h3, h4, h5, h6, h7, isSuccessRun]

/-- Claim C7: when the usage-limit guard does not fire, a run whose required
documents are not both present fails immediately as missing input, with no
extraction attempted, no network attempt, and no usage increment. -/
theorem c7_missing_input_no_network (a : PipelineArgs)
    (hpw : a.role = some "ADMIN" ∨ a.bidderChecks < MAX_FREE_AUDITS)
    (hmiss : a.rfqFile = none ∨ a.bidFile = none) :
    (handleAnalyze a).1 = .missingInput ∧
    (handleAnalyze a).2.extractions = 0 ∧
    numAttempts (handleAnalyze a).2.transportTrace = 0 ∧
    (handleAnalyze a).2.incrementCalls = 0 := by
  have hc : ¬(a.role ≠ some "ADMIN" ∧ MAX_FREE_AUDITS ≤ a.bidderChecks) := by
    rcases hpw with h | h
    · exact fun hcon => hcon.1 h
    · exact fun hcon => absurd hcon.2 (by omega)
  unfold handleAnalyze
  rw [if_neg hc]
  rcases hmiss with h | h
  · rcases h2 : a.bidFile with _ | bid <;> simp [h, h2, numAttempts]
  · rcases h1 : a.rfqFile with _ | rfq <;> simp [h, h1, numAttempts]

/-- Witness for C7: no files supplied, usage below the cap. -/
theorem c7_missing_input_no_network_witness :
    (handleAnalyze ⟨none, 0, none, none, envAll, fun _ => .error "net",
        fun _ => .error "parse"⟩).1 = .missingInput ∧
    (handleAnalyze ⟨none, 0, none, none, envAll, fun _ => .error "net",
        fun _ => .error "parse"⟩).2.extractions = 0 ∧
    numAttempts (handleAnalyze ⟨none, 0, none, none, envAll, fun _ => .error "net",
        fun _ => .error "parse"⟩).2.transportTrace = 0 ∧
    (handleAnalyze ⟨none, 0, none, none, envAll, fun _ => .error "net",
        fun _ => .error "parse"⟩).2.incrementCalls = 0 :=
  c7_missing_input_no_network _ (Or.inr (by decide)) (Or.inl rfl)

/-! Step lemmas for the retry loop. -/

lemma go_step_ok (fetchF : Nat → Except String Response) (m i : Nat)
    (trace : List Ev) (r : Response) (hi : i < m)
    (har : attemptResult (fetchF i) = .ok r) :
    fetchWithRetryGo fetchF m i trace = (.ok (some r), trace ++ [.attempt i (.ok r)]) := by
  rw [fetchWithRetryGo]
  simp [hi, har]

lemma go_step_fail_last (fetchF : Nat → Except String Response) (m i : Nat)
    (trace : List Ev) (e : String) (hi : i < m)
    (har : attemptResult (fetchF i) = .error e) (hl : i = m - 1) :
    fetchWithRetryGo fetchF m i trace = (.error e, trace ++ [.attempt i (.error e)]) := by
  subst hl
  rw [fetchWithRetryGo]
  simp [hi, har]

lemma go_step_fail (fetchF : Nat → Except String Response) (m i : Nat)
    (trace : List Ev) (e : String) (hi : i < m)
    (har : attemptResult (fetchF i) = .error e) (hl : ¬ i = m - 1) :
    fetchWithRetryGo fetchF m i trace
      = fetchWithRetryGo fetchF m (i + 1)
          (trace ++ [.attempt i (.error e), .wait (2 ^ i * 1000)]) := by
  conv =>
    lhs
    rw [fetchWithRetryGo]
  simp [hi, har, hl]

lemma go_stop (fetchF : Nat → Except String Response) (m i : Nat)
    (trace : List Ev) (hi : ¬ i < m) :
    fetchWithRetryGo fetchF m i trace = (.ok none, trace) := by
  rw [fetchWithRetryGo]
  simp [hi]

lemma numAttempts_append (s t : List Ev) :
    numAttempts (s ++ t) = numAttempts s + numAttempts t := by
  simp [numAttempts, List.countP_append]

lemma totalWait_append (s t : List Ev) :
    totalWait (s ++ t) = totalWait s + totalWait t := by
  simp [totalWait]

lemma numAttempts_failSeg (e : Nat → String) :
    ∀ (k i : Nat), numAttempts (failSeg e i k) = k := by
  intro k
  induction k with
  | zero => intro i; rfl
  | succ k ih =>
    intro i
    show numAttempts (.attempt i (.error (e i)) :: .wait (2 ^ i * 1000) :: failSeg e (i + 1) k) = k + 1
    rw [show (.attempt i (.error (e i)) :: .wait (2 ^ i * 1000) :: failSeg e (i + 1) k : List Ev)
        = [.attempt i (.error (e i)), .wait (2 ^ i * 1000)] ++ failSeg e (i + 1) k from rfl]
    rw [numAttempts_append, ih (i + 1)]
    have h2 : numAttempts [.attempt i (.error (e i)), .wait (2 ^ i * 1000)] = 1 := rfl
    rw [h2]
    omega

lemma totalWait_failSeg (e : Nat → String) :
    ∀ (k i : Nat),
      totalWait (failSeg e i k) = ((List.range k).map fun j => 2 ^ (i + j) * 1000).sum := by
  intro k
  induction k with
  | zero => intro i; rfl
  | succ k ih =>
    intro i
    rw [List.range_succ_eq_map]
    rw [show failSeg e i (k + 1)
        = [.attempt i (.error (e i)), .wait (2 ^ i * 1000)] ++ failSeg e (i + 1) k from rfl]
    rw [totalWait_append, ih (i + 1)]
    simp only [List.map_cons, List.sum_cons, List.map_map]
    have hcomp : ((fun j => 2 ^ (i + j) * 1000) ∘ Nat.succ) = fun j => 2 ^ ((i + 1) + j) * 1000 := by
      funext j
      simp only [Function.comp_apply]
      congr 1
      congr 1
      omega
    rw [hcomp]
    have h2 : totalWait [.attempt i (.error (e i)), .wait (2 ^ i * 1000)] = 2 ^ i * 1000 := by
      simp [totalWait]
    rw [h2]
    have h3 : i + 0 = i := by omega
    rw [h3]

lemma fetchWithRetryGo_always_fails (fetchF : Nat → Except String Response)
    (e : Nat → String) (he : ∀ j, attemptResult (fetchF j) = .error (e j)) :
    ∀ (k i : Nat) (trace : List Ev),
      fetchWithRetryGo fetchF (i + k + 1) i trace
        = (.error (e (i + k)),
           trace ++ (failSeg e i k ++ [.attempt (i + k) (.error (e (i + k)))])) := by
  intro k
  induction k with
  | zero =>
    intro i trace
    rw [go_step_fail_last fetchF (i + 0 + 1) i trace (e i) (by omega) (he i) (by omega)]
    simp [failSeg]
  | succ k ih =>
    intro i trace
    rw [go_step_fail fetchF (i + (k + 1) + 1) i trace (e i) (by omega) (he i) (by omega)]
    rw [show i + (k + 1) + 1 = (i + 1) + k + 1 from by omega, ih (i + 1)]
    rw [show (i + 1) + k = i + (k + 1) from by omega]
    simp [failSeg, List.append_assoc]

/-- Claim C3: with a transport whose every attempt fails, `fetchWithRetry`
performs exactly `maxRetries` attempts, in order, each non-final failed
attempt `i` immediately followed by its backoff wait of `2 ^ i` seconds
(`2 ^ i * 1000` ms), for a total wait of `Σ 2 ^ i` over
`i ∈ 0..maxRetries-2`, and the call surfaces the error of the final attempt. -/
theorem c3_retry_exhaustion (fetchF : Nat → Except String Response)
    (e : Nat → String) (m : Nat) (hm : 1 ≤ m)
    (he : ∀ j, attemptResult (fetchF j) = .error (e j)) :
    fetchWithRetry fetchF m
      = (.error (e (m - 1)),
         failSeg e 0 (m - 1) ++ [.attempt (m - 1) (.error (e (m - 1)))]) ∧
    numAttempts (fetchWithRetry fetchF m).2 = m ∧
    totalWait (fetchWithRetry fetchF m).2
      = ((List.range (m - 1)).map fun i => 2 ^ i * 1000).sum := by
  have hkey := fetchWithRetryGo_always_fails fetchF e he (m - 1) 0 []
  simp only [Nat.zero_add] at hkey
  rw [show m - 1 + 1 = m from by omega] at hkey
  have hmain : fetchWithRetry fetchF m
      = (.error (e (m - 1)),
         failSeg e 0 (m - 1) ++ [.attempt (m - 1) (.error (e (m - 1)))]) := by
    rw [fetchWithRetry, hkey]
    simp
  refine ⟨hmain, ?_, ?_⟩
  · rw [hmain]
    show numAttempts (failSeg e 0 (m - 1) ++ [.attempt (m - 1) (.error (e (m - 1)))]) = m
    rw [numAttempts_append, numAttempts_failSeg]
    have h1 : numAttempts [.attempt (m - 1) (.error (e (m - 1)))] = 1 := rfl
    rw [h1]
    omega
  · rw [hmain]
    show totalWait (failSeg e 0 (m - 1) ++ [.attempt (m - 1) (.error (e (m - 1)))])
      = ((List.range (m - 1)).map fun i => 2 ^ i * 1000).sum
    rw [totalWait_append, totalWait_failSeg]
    have h1 : totalWait [.attempt (m - 1) (.error (e (m - 1)))] = 0 := rfl
    rw [h1]
    simp

/-- Witness for C3 at a transport that always fails with `boom` and the
default `maxRetries = 3`. -/
theorem c3_retry_exhaustion_witness :
    fetchWithRetry (fun _ => .error "boom") 3
      = (.error "boom",
         failSeg (fun _ => "boom") 0 2 ++ [.attempt 2 (.error "boom")]) ∧
    numAttempts (fetchWithRetry (fun _ => .error "boom") 3).2 = 3 ∧
    totalWait (fetchWithRetry (fun _ => .error "boom") 3).2
      = ((List.range 2).map fun i => 2 ^ i * 1000).sum :=
  c3_retry_exhaustion (fun _ => .error "boom") (fun _ => "boom") 3 (by decide)
    (fun _ => rfl)

lemma go_successIsLast (g : Nat → Except String Response) (m : Nat) :
    ∀ (k i : Nat) (trace : List Ev), m - i ≤ k →
      (∀ ev ∈ trace, isOkAttempt ev = false) →
      ∀ ev ∈ (fetchWithRetryGo g m i trace).2.dropLast, isOkAttempt ev = false := by
  intro k
  induction k with
  | zero =>
    intro i trace hk htr
    rw [go_stop g m i trace (by omega)]
    intro ev hev
    exact htr ev (List.dropLast_subset _ hev)
  | succ k ih =>
    intro i trace hk htr
    by_cases hi : i < m
    · rcases har : attemptResult (g i) with e | r
      · by_cases hlast : i = m - 1
        · rw [go_step_fail_last g m i trace e hi har hlast]
          intro ev hev
          rw [List.dropLast_concat] at hev
          exact htr ev hev
        · rw [go_step_fail g m i trace e hi har hlast]
          refine ih (i + 1) _ (by omega) ?_
          intro ev hev
          rcases List.mem_append.1 hev with h | h
          · exact htr ev h
          · simp only [List.mem_cons, List.not_mem_nil, or_false] at h
            rcases h with rfl | rfl <;> rfl
      · rw [go_step_ok g m i trace r hi har]
        intro ev hev
        rw [List.dropLast_concat] at hev
        exact htr ev hev
    · rw [go_stop g m i trace hi]
      intro ev hev
      exact htr ev (List.dropLast_subset _ hev)

/-- The response delivered by the fail-once-then-succeed transport. -/
def respOk : Response := ⟨true, 200, .ok ⟨some "payload"⟩⟩

/-- A transport that fails on attempt 0 and succeeds from attempt 1 on. -/
def failOnceFetch : Nat → Except String Response :=
  fun i => if i = 0 then .error "boom" else .ok respOk

/-- Claim C8: with a transport that fails once then succeeds, `fetchWithRetry`
performs exactly 2 attempts (the failed one, its backoff wait, then the
successful one) and returns the success response; and in every run of
`fetchWithRetry`, a successful attempt is the final event of the trace, so no
attempt occurs after a success. -/
theorem c8_retry_success_short_circuit (fetchF : Nat → Except String Response)
    (m : Nat) (e0 : String) (r : Response) (hm : 2 ≤ m)
    (h0 : attemptResult (fetchF 0) = .error e0)
    (h1 : attemptResult (fetchF 1) = .ok r) :
    fetchWithRetry fetchF m
      = (.ok (some r),
         [.attempt 0 (.error e0), .wait 1000, .attempt 1 (.ok r)]) ∧
    numAttempts (fetchWithRetry fetchF m).2 = 2 ∧
    ∀ (g : Nat → Except String Response) (n : Nat),
      successIsLast (fetchWithRetry g n).2 := by
  have hmain : fetchWithRetry fetchF m
      = (.ok (some r),
         [.attempt 0 (.error e0), .wait 1000, .attempt 1 (.ok r)]) := by
    rw [fetchWithRetry]
    rw [go_step_fail fetchF m 0 [] e0 (by omega) h0 (by omega)]
    rw [go_step_ok fetchF m 1 _ r (by omega) h1]
    norm_num
  refine ⟨hmain, ?_, ?_⟩
  · rw [hmain]
    rfl
  · intro g n
    exact go_successIsLast g n n 0 [] (by omega) (by simp)

/-- Witness for C8 at the concrete fail-once transport with the default
`maxRetries = 3`. -/
theorem c8_retry_success_short_circuit_witness :
    fetchWithRetry failOnceFetch 3
      = (.ok (some respOk),
         [.attempt 0 (.error "boom"), .wait 1000, .attempt 1 (.ok respOk)]) ∧
    numAttempts (fetchWithRetry failOnceFetch 3).2 = 2 ∧
    ∀ (g : Nat → Except String Response) (n : Nat),
      successIsLast (fetchWithRetry g n).2 :=
  c8_retry_success_short_circuit failOnceFetch 3 "boom" respOk (by decide) rfl rfl

/-! The validation stage and the success path of the pipeline. -/

/-- A raw payload with every field absent: what `JSON.parse` yields on an
empty JSON object. -/
def emptyPayload : RawPayload := {}

/-- A concrete requirements document. -/
def rfpTxtFile : UploadedFile :=
  ⟨"rfp.txt", .ok "PROJECT TITLE: X", .ok [], .ok ""⟩

/-- A concrete proposal document. -/
def bidTxtFile : UploadedFile :=
  ⟨"bid.txt", .ok "We use GraphQL.", .ok [], .ok ""⟩

/-- A transport that succeeds immediately with `respOk`. -/
def okTransport : Nat → Except String Response := fun _ => .ok respOk

/-- Pipeline arguments whose transport succeeds at once and whose parsed
payload is the empty object. -/
def argsAccept : PipelineArgs :=
  ⟨none, 0, some rfpTxtFile, some bidTxtFile, envAll, okTransport,
   fun _ => .ok emptyPayload⟩

lemma handleAnalyze_success_path (a : PipelineArgs) (rfq bid : UploadedFile)
    (content1 content2 : String) (resp : Response) (tr : List Ev)
    (body : ResBody) (p : RawPayload)
    (hpw : ¬(a.role ≠ some "ADMIN" ∧ MAX_FREE_AUDITS ≤ a.bidderChecks))
    (h1 : a.rfqFile = some rfq) (h2 : a.bidFile = some bid)
    (h3 : processFile a.env rfq = .ok content1)
    (h4 : processFile a.env bid = .ok content2)
    (h5 : fetchWithRetry a.fetchF 3 = (.ok (some resp), tr))
    (h6 : resp.json = .ok body)
    (h7 : validate a.parseJson body.jsonText = .ok p) :
    handleAnalyze a = (.success p, ⟨2, tr, 1⟩) := by
  unfold handleAnalyze
  rw [if_neg hpw]
  simp only [h1, h2, h3, h4, h5, h6, h7]

/-- Counterexample to claim C1 as stated: with a remote response whose parsed
payload is the empty object (missing every contract-required field), the run
does not fail with a validation error — it reaches the successful terminal
state, with `jobRole` and `candidateName` silently substituted by default
values. -/
theorem c1_missing_fields_accepted :
    meetsContract emptyPayload = false ∧
    handleAnalyze argsAccept
      = (.success (applyReportDefaults emptyPayload),
         ⟨2, [.attempt 0 (.ok respOk)], 1⟩) ∧
    (applyReportDefaults emptyPayload).jobRole = some "Untitled RFP" ∧
    (applyReportDefaults emptyPayload).candidateName = some "Unknown Bidder" := by
  refine ⟨rfl, ?_, rfl, rfl⟩
  have h5 : fetchWithRetry argsAccept.fetchF 3
      = (.ok (some respOk), [.attempt 0 (.ok respOk)]) := by
    rw [show argsAccept.fetchF = okTransport from rfl]
    rw [fetchWithRetry, go_step_ok okTransport 3 0 [] respOk (by omega) rfl]
    simp
  exact handleAnalyze_success_path argsAccept rfpTxtFile bidTxtFile
    "PROJECT TITLE: X" "We use GraphQL." respOk [.attempt 0 (.ok respOk)]
    ⟨some "payload"⟩ (applyReportDefaults emptyPayload)
    (by decide) rfl rfl rfl rfl h5 rfl rfl

/-- Claim C1 (amended): the code performs no structural validation of the
parsed payload — any payload `JSON.parse` accepts becomes a report, even when
it misses contract-required fields or holds out-of-domain enum values; the
only changes made are default substitutions for falsy `jobRole` and
`candidateName`, every other field passing through unchecked; the only
rejections are a missing response text field or a JSON parse failure. -/
theorem c1_validate_defaults_only (parseJson : String → Except String RawPayload)
    (txt : String) (p : RawPayload)
    (hp : parseJson txt = .ok p) (_hbad : meetsContract p = false) :
    validate parseJson (some txt) = .ok (applyReportDefaults p) ∧
    (applyReportDefaults p).fitLevel = p.fitLevel ∧
    (applyReportDefaults p).findings = p.findings ∧
    (applyReportDefaults p).suitabilityScore = p.suitabilityScore ∧
    (applyReportDefaults p).jobRole = some (jsOrString p.jobRole "Untitled RFP") ∧
    (applyReportDefaults p).candidateName
      = some (jsOrString p.candidateName "Unknown Bidder") := by
  refine ⟨?_, rfl, rfl, rfl, rfl, rfl⟩
  simp [validate, hp]

/-- Witness for the amended C1 at the empty payload. -/
theorem c1_validate_defaults_only_witness :
    validate (fun _ => .ok emptyPayload) (some "payload")
      = .ok (applyReportDefaults emptyPayload) ∧
    (applyReportDefaults emptyPayload).fitLevel = emptyPayload.fitLevel ∧
    (applyReportDefaults emptyPayload).findings = emptyPayload.findings ∧
    (applyReportDefaults emptyPayload).suitabilityScore
      = emptyPayload.suitabilityScore ∧
    (applyReportDefaults emptyPayload).jobRole
      = some (jsOrString emptyPayload.jobRole "Untitled RFP") ∧
    (applyReportDefaults emptyPayload).candidateName
      = some (jsOrString emptyPayload.candidateName "Unknown Bidder") :=
  c1_validate_defaults_only (fun _ => .ok emptyPayload) "payload" emptyPayload rfl rfl

/-! The compliance percentage used for ranking. -/

/-- A finding with full compliance: score 1, in-domain flag and category. -/
def scoredFinding : Finding :=
  { matchScore := some 1, flag := some "MATCH", category := some "MUST_HAVE_SKILL" }

/-- A stored report whose single finding scores 1 but whose model-reported
`suitabilityScore` is 40. -/
def histLowScore : HistReport :=
  { jobRole := some "Project Alpha", suitabilityScore := some 40,
    findings := some [scoredFinding], id := 1, timestamp := 0 }

lemma roundTo1_hundred : roundTo1 100 = 100 := by
  rw [roundTo1]
  have hfl : ⌊(10 * (100 : ℚ) + 1 / 2)⌋ = (1000 : ℤ) := by
    rw [Int.floor_eq_iff]
    constructor <;> norm_num
  rw [hfl]
  norm_num

/-- Counterexample to claim C5 as stated: the ranking percentage is the
`suitabilityScore` field of the report (40 here), not the findings-derived formula
`100 * sum(scores) / count` (which gives 100 for one finding scored 1). -/
theorem c5_percentage_ignores_findings :
    histLowScore.findings = some [scoredFinding] ∧
    scoredFinding.matchScore = some 1 ∧
    compliancePercentageSpec [scoredFinding] = 100 ∧
    percentage histLowScore = 40 ∧
    percentage histLowScore ≠ compliancePercentageSpec [scoredFinding] := by
  have hspec : compliancePercentageSpec [scoredFinding] = 100 := by
    rw [compliancePercentageSpec]
    norm_num [scoredFinding]
    convert roundTo1_hundred using 2
  have hperc : percentage histLowScore = 40 := by
    norm_num [percentage, histLowScore, jsOrRat]
  refine ⟨rfl, rfl, hspec, hperc, ?_⟩
  rw [hspec, hperc]
  norm_num

/-- Claim C5 (amended): the percentage shown and ranked is exactly the
`suitabilityScore` field of the report with falsy values (absent or 0) mapped
to 0; it
depends on no other field (in particular not on the findings), and it is 0
when `suitabilityScore` is absent. -/
theorem c5_percentage_is_suitability_score :
    (∀ r₁ r₂ : HistReport, r₁.suitabilityScore = r₂.suitabilityScore →
        percentage r₁ = percentage r₂) ∧
    (∀ r : HistReport, r.suitabilityScore = none → percentage r = 0) ∧
    (∀ (r : HistReport) (q : ℚ), r.suitabilityScore = some q → q ≠ 0 →
        percentage r = q) ∧
    (∀ r : HistReport, r.suitabilityScore = some 0 → percentage r = 0) := by
  refine ⟨?_, ?_, ?_, ?_⟩
  · intro r₁ r₂ h
    simp [percentage, jsOrRat, h]
  · intro r h
    simp [percentage, jsOrRat, h]
  · intro r q h hq
    simp [percentage, jsOrRat, h, hq]
  · intro r h
    simp [percentage, jsOrRat, h]

/-- Witness for the amended C5 at the concrete stored report. -/
theorem c5_percentage_is_suitability_score_witness :
    percentage histLowScore = 40 :=
  c5_percentage_is_suitability_score.2.2.1 histLowScore 40 rfl (by norm_num)

/-! Grouping and ranking. -/

lemma addToGroups_mem_preserve (kNew : String) (ent : HistReport × ℚ) :
    ∀ (acc : List (String × List (HistReport × ℚ))) (k : String) (e : HistReport × ℚ),
      (∃ g ∈ acc, g.1 = k ∧ e ∈ g.2) →
      ∃ g ∈ addToGroups acc kNew ent, g.1 = k ∧ e ∈ g.2 := by
  intro acc
  induction acc with
  | nil =>
    intro k e h
    simp at h
  | cons hd rest ih =>
    intro k e h
    simp only [addToGroups]
    by_cases hk : hd.1 = kNew
    · rw [if_pos hk]
      rcases h with ⟨g, hg, hgk, hge⟩
      rcases List.mem_cons.1 hg with rfl | hg'
      · exact ⟨(g.1, g.2 ++ [ent]), List.mem_cons_self _ _, hgk,
          List.mem_append_left _ hge⟩
      · exact ⟨g, List.mem_cons_of_mem _ hg', hgk, hge⟩
    · rw [if_neg hk]
      rcases h with ⟨g, hg, hgk, hge⟩
      rcases List.mem_cons.1 hg with rfl | hg'
      · exact ⟨g, List.mem_cons_self _ _, hgk, hge⟩
      · obtain ⟨g', hg'mem, h1, h2⟩ := ih k e ⟨g, hg', hgk, hge⟩
        exact ⟨g', List.mem_cons_of_mem _ hg'mem, h1, h2⟩

lemma addToGroups_adds :
    ∀ (acc : List (String × List (HistReport × ℚ))) (k : String) (ent : HistReport × ℚ),
      ∃ g ∈ addToGroups acc k ent, g.1 = k ∧ ent ∈ g.2 := by
  intro acc
  induction acc with
  | nil =>
    intro k ent
    exact ⟨(k, [ent]), by simp [addToGroups], rfl, by simp⟩
  | cons hd rest ih =>
    intro k ent
    simp only [addToGroups]
    by_cases hk : hd.1 = k
    · rw [if_pos hk]
      exact ⟨(hd.1, hd.2 ++ [ent]), List.mem_cons_self _ _, hk, by simp⟩
    · rw [if_neg hk]
      obtain ⟨g, hg, h1, h2⟩ := ih k ent
      exact ⟨g, List.mem_cons_of_mem _ hg, h1, h2⟩

lemma addToGroups_prop (P : HistReport × ℚ → String → Prop) :
    ∀ (acc : List (String × List (HistReport × ℚ))) (k : String) (ent : HistReport × ℚ),
      (∀ g ∈ acc, ∀ e ∈ g.2, P e g.1) → P ent k →
      ∀ g ∈ addToGroups acc k ent, ∀ e ∈ g.2, P e g.1 := by
  intro acc
  induction acc with
  | nil =>
    intro k ent _ hent g hg e he
    simp [addToGroups] at hg
    subst hg
    simp at he
    subst he
    exact hent
  | cons hd rest ih =>
    intro k ent hacc hent g hg e he
    simp only [addToGroups] at hg
    by_cases hk : hd.1 = k
    · rw [if_pos hk] at hg
      rcases List.mem_cons.1 hg with rfl | hg'
      · rcases List.mem_append.1 he with h | h
        · exact hacc hd (List.mem_cons_self _ _) e h
        · simp only [List.mem_cons, List.not_mem_nil, or_false] at h
          subst h
          rw [hk]
          exact hent
      · exact hacc g (List.mem_cons_of_mem _ hg') e he
    · rw [if_neg hk] at hg
      rcases List.mem_cons.1 hg with rfl | hg'
      · exact hacc g (List.mem_cons_self _ _) e he
      · exact ih k ent (fun g hg => hacc g (List.mem_cons_of_mem _ hg)) hent g hg' e he

lemma foldl_groups_prop (rs : List HistReport) :
    ∀ acc, (∀ g ∈ acc, ∀ e ∈ g.2, groupKey e.1 = g.1 ∧ e.2 = percentage e.1) →
      ∀ g ∈ rs.foldl (fun acc r => addToGroups acc (groupKey r) (r, percentage r)) acc,
        ∀ e ∈ g.2, groupKey e.1 = g.1 ∧ e.2 = percentage e.1 := by
  induction rs with
  | nil =>
    intro acc hacc
    simpa using hacc
  | cons r rs ih =>
    intro acc hacc
    simp only [List.foldl_cons]
    exact ih _ (addToGroups_prop (fun e k => groupKey e.1 = k ∧ e.2 = percentage e.1)
      acc (groupKey r) (r, percentage r) hacc ⟨rfl, rfl⟩)

lemma foldl_groups_mem_preserve (rs : List HistReport) :
    ∀ acc (k : String) (e : HistReport × ℚ), (∃ g ∈ acc, g.1 = k ∧ e ∈ g.2) →
      ∃ g ∈ rs.foldl (fun acc r => addToGroups acc (groupKey r) (r, percentage r)) acc,
        g.1 = k ∧ e ∈ g.2 := by
  induction rs with
  | nil =>
    intro acc k e h
    simpa using h
  | cons r rs ih =>
    intro acc k e h
    simp only [List.foldl_cons]
    exact ih _ k e (addToGroups_mem_preserve (groupKey r) (r, percentage r) acc k e h)

lemma foldl_groups_mem (rs : List HistReport) :
    ∀ acc r, r ∈ rs →
      ∃ g ∈ rs.foldl (fun acc r => addToGroups acc (groupKey r) (r, percentage r)) acc,
        g.1 = groupKey r ∧ (r, percentage r) ∈ g.2 := by
  induction rs with
  | nil =>
    intro acc r hr
    simp at hr
  | cons r' rs ih =>
    intro acc r hr
    simp only [List.foldl_cons]
    rcases List.mem_cons.1 hr with rfl | hr'
    · exact foldl_groups_mem_preserve rs _ (groupKey r) (r, percentage r)
        (addToGroups_adds acc (groupKey r) (r, percentage r))
    · exact ih _ r hr'

lemma groupedReports_prop (rs : List HistReport) :
    ∀ g ∈ groupedReports rs, ∀ e ∈ g.2, groupKey e.1 = g.1 ∧ e.2 = percentage e.1 :=
  foldl_groups_prop rs [] (by simp)

lemma groupedReports_mem (rs : List HistReport) :
    ∀ r ∈ rs, ∃ g ∈ groupedReports rs, g.1 = groupKey r ∧ (r, percentage r) ∈ g.2 :=
  fun r hr => foldl_groups_mem rs [] r hr

/-- A bid report scored 40 for the RFP `Project Alpha`. -/
def bid40 : HistReport :=
  { jobRole := some "Project Alpha", suitabilityScore := some 40, id := 1, timestamp := 10 }

/-- A bid report scored 90 for the same RFP. -/
def bid90 : HistReport :=
  { jobRole := some "Project Alpha", suitabilityScore := some 90, id := 2, timestamp := 20 }

/-- Claim C9: the ranking groups history reports by their originating RFP
identity (`jobRole`, defaulted to `Untitled RFP`), each group carrying its
reports with their percentages, ordered by percentage descending; every
report lands in the group of its own key; and in particular two same-RFP
reports scored 40 and 90 yield one group with the 90-scored report first. -/
theorem c9_group_and_rank :
    groupAndRank [bid40, bid90]
      = [("Project Alpha", [(bid90, 90), (bid40, 40)])] ∧
    (∀ (reports : List HistReport) (g : String × List (HistReport × ℚ)),
        g ∈ groupAndRank reports →
        g.2.Pairwise (fun a b => b.2 ≤ a.2) ∧
        ∀ e ∈ g.2, groupKey e.1 = g.1 ∧ e.2 = percentage e.1) ∧
    (∀ (reports : List HistReport) (r : HistReport), r ∈ reports →
        ∃ g ∈ groupAndRank reports, g.1 = groupKey r ∧ (r, percentage r) ∈ g.2) := by
  refine ⟨?_, ?_, ?_⟩
  · have h40 : percentage bid40 = 40 := by norm_num [percentage, bid40, jsOrRat]
    have h90 : percentage bid90 = 90 := by norm_num [percentage, bid90, jsOrRat]
    have hkey40 : groupKey bid40 = "Project Alpha" := rfl
    have hkey90 : groupKey bid90 = "Project Alpha" := rfl
    rw [groupAndRank, rankedProjects, groupedReports]
    simp only [List.foldl_cons, List.foldl_nil, hkey40, hkey90, h40, h90]
    norm_num [addToGroups, List.insertionSort, List.orderedInsert, List.filter]
  · intro reports g hg
    rw [groupAndRank] at hg
    obtain ⟨h, hh, rfl⟩ := List.mem_map.1 hg
    have hh1 : h ∈ (groupedReports reports).filter (fun g => 1 ≤ g.2.length) := by
      rw [rankedProjects] at hh
      exact ((List.perm_insertionSort _ _).mem_iff).1 hh
    have hh2 : h ∈ groupedReports reports := List.mem_of_mem_filter hh1
    constructor
    · haveI : IsTotal (HistReport × ℚ) (fun a b => b.2 ≤ a.2) :=
        ⟨fun a b => le_total b.2 a.2⟩
      haveI : IsTrans (HistReport × ℚ) (fun a b => b.2 ≤ a.2) :=
        ⟨fun _ _ _ hab hbc => le_trans hbc hab⟩
      exact List.sorted_insertionSort _ _
    · intro e he
      have he' : e ∈ h.2 := ((List.perm_insertionSort _ _).mem_iff).1 he
      exact groupedReports_prop reports h hh2 e he'
  · intro reports r hr
    obtain ⟨g, hg, h1, h2⟩ := groupedReports_mem reports r hr
    have hlen : 0 < g.2.length := List.length_pos_of_mem h2
    have hf : g ∈ (groupedReports reports).filter (fun g => 1 ≤ g.2.length) :=
      List.mem_filter.2 ⟨hg, by simpa using hlen⟩
    have hs : g ∈ rankedProjects reports := by
      rw [rankedProjects]
      exact ((List.perm_insertionSort _ _).mem_iff).2 hf
    refine ⟨(g.1, List.insertionSort (fun a b => b.2 ≤ a.2) g.2), ?_, h1, ?_⟩
    · rw [groupAndRank]
      exact List.mem_map.2 ⟨g, hs, rfl⟩
    · exact ((List.perm_insertionSort _ _).mem_iff).2 h2

/-- Witness for C9: the 40-scored report is found in its group. -/
theorem c9_group_and_rank_witness :
    ∃ g ∈ groupAndRank [bid40, bid90],
      g.1 = groupKey bid40 ∧ (bid40, percentage bid40) ∈ g.2 :=
  c9_group_and_rank.2.2 [bid40, bid90] bid40 (by simp)
